import Mathlib

/-
  Verification of the Preset Extraction & Normalization Pipeline of the
  ignitron-preset-tools repository.

  The embedding translates, from the Python sources:
    - ignitron preset converter/ignitron_preset_converter.py :
        _extract_lines_to_files, parse_presetlist_from_lines,
        the include_only derivation and the bank-list export of
        live_serial_capture_and_save
    - preset_puller.py :
        _basename, _clean_json_text, _normalize_for_ignitron,
        _write_preset_file, _extract_lines_to_files

  Strings are modelled as lists of characters.  Filesystem effects are
  modelled as an association list from file names (within the run's output
  directory) to file contents.  The Python standard-library pieces the code
  leans on (re.search of the two fixed patterns, pathlib.PurePosixPath.name
  and .stem, str.strip and friends, json.loads) are modelled explicitly
  below, faithful to their documented behaviour on the inputs the pipeline
  feeds them; divergences of the json model from Python (NaN or Infinity
  literals, surrogate escape pairs, str() of containers) are noted where
  they occur and are not relied on by any theorem.
-/

namespace Ignitron

/-- Lines and strings are lists of characters. -/
abbrev L := List Char

/-- The opening curly brace character (written by code point to keep
    source braces meaning Lean structure syntax only). -/
def lbrace : Char := Char.ofNat 123

/-- The closing curly brace character. -/
def rbrace : Char := Char.ofNat 125

/-- Python's notion of whitespace for `\s`, `str.strip` and `str.lstrip`:
    space, tab, newline, carriage return, vertical tab, form feed. -/
def pySpace (c : Char) : Bool :=
  c = ' ' || c = '\t' || c = '\n' || c = '\r' || c = Char.ofNat 11 || c = Char.ofNat 12

/-- Python `line.rstrip("\r\n")`: drop trailing CR and LF characters. -/
def rstripCRLF (l : L) : L :=
  (l.reverse.dropWhile (fun c => c = '\r' || c = '\n')).reverse

/-- Python `s.strip()`: drop leading and trailing whitespace. -/
def pyStrip (l : L) : L :=
  ((l.dropWhile pySpace).reverse.dropWhile pySpace).reverse

/-- Python `s.lstrip("/")`: drop leading slash characters. -/
def lstripSlash (l : L) : L := l.dropWhile (fun c => c = '/')

/-- Python `s.lstrip()`: drop leading whitespace. -/
def pyLstrip (l : L) : L := l.dropWhile pySpace

/-- Python `s.lower()` (ASCII part, which is all the markers use). -/
def toLowerL (l : L) : L := l.map Char.toLower

/-- Python `s.upper()` (ASCII part; the identifiers in play are ASCII). -/
def pyUpper (l : L) : L := l.map Char.toUpper

/-- Python `pat in s`: substring containment. -/
def strHas (pat : L) : L → Bool
  | [] => pat.isEmpty
  | c :: rest => pat.isPrefixOf (c :: rest) || strHas pat rest

/-- Maximal run of non-whitespace characters, as matched by `[^\s]+`. -/
def takeNonSpace (l : L) : L := l.takeWhile (fun c => !pySpace c)

/-- The literal of FILENAME_RE. -/
def fnLit : L := "Reading preset filename:".toList

/-- Attempt of the tail `\s*/?([^\s]+)` of FILENAME_RE at a suffix that
    follows the literal; returns the captured group.  Mirrors the regex
    engine: greedy `\s*`, then `/?` which backtracks to the empty match
    when `[^\s]+` would otherwise have nothing to consume. -/
def fnAfter (rest : L) : Option L :=
  let t := rest.dropWhile pySpace
  match t with
  | [] => none
  | c :: t2 =>
    if c = '/' then
      let cap := takeNonSpace t2
      if cap.isEmpty then some ['/'] else some cap
    else some (takeNonSpace t)

/-- `FILENAME_RE.search(line)`: leftmost occurrence of the literal whose
    tail matches; on a failed tail the engine resumes at the next start
    position, exactly as `re.search` does. -/
def fnSearch : L → Option L
  | [] => none
  | c :: rest =>
    if fnLit.isPrefixOf (c :: rest) then
      match fnAfter ((c :: rest).drop fnLit.length) with
      | some cap => some cap
      | none => fnSearch rest
    else fnSearch rest

/-- The literal of JSON_RE. -/
def jsLit : L := "JSON STRING:".toList

/-- Prefix of the list up to and including its last closing brace, if any;
    this is what the greedy `.*` inside `(\{.*\})` ends up consuming. -/
def upToLastRBrace : L → Option L
  | [] => none
  | c :: rest =>
    match upToLastRBrace rest with
    | some r => some (c :: r)
    | none => if c = rbrace then some [c] else none

/-- Attempt of the tail `\s*(\{.*\})` of JSON_RE after the literal. -/
def jsAfter (rest : L) : Option L :=
  let t := rest.dropWhile pySpace
  match t with
  | [] => none
  | c :: t2 =>
    if c = lbrace then
      match upToLastRBrace t2 with
      | some r => some (c :: r)
      | none => none
    else none

/-- `JSON_RE.search(line)`: leftmost match of
    `JSON STRING:\s*(\{.*\})`, capture group returned. -/
def jsSearch : L → Option L
  | [] => none
  | c :: rest =>
    if jsLit.isPrefixOf (c :: rest) then
      match jsAfter ((c :: rest).drop jsLit.length) with
      | some cap => some cap
      | none => jsSearch rest
    else jsSearch rest

/-- Split a path on slashes (plain split, keeping empty segments). -/
def splitSlashGo (cur : L) : L → List L
  | [] => [cur.reverse]
  | c :: rest =>
    if c = '/' then cur.reverse :: splitSlashGo [] rest
    else splitSlashGo (c :: cur) rest

/-- `pathlib.PurePosixPath(s).name`: the last path component, with empty
    and single-dot components dropped by path parsing. -/
def pathName (l : L) : L :=
  (((splitSlashGo [] l).filter (fun c => !c.isEmpty && c ≠ ['.'])).getLast?).getD []

/-- Index of the last `.` of a name, if any (Python `str.rfind`). -/
def lastDotIdx (l : L) : Option Nat :=
  match l.reverse.findIdx? (fun c => c = '.') with
  | some k => some (l.length - 1 - k)
  | none => none

/-- `pathlib.PurePosixPath(name).stem` for a bare name: the name minus its
    suffix; a dot at position 0 or at the very end yields no suffix. -/
def pyStem (name : L) : L :=
  match lastDotIdx name with
  | some i => if 0 < i ∧ i < name.length - 1 then name.take i else name
  | none => name

/-- `candidate.lower().endswith(".json")`. -/
def lowerEndsJson (l : L) : Bool := ".json".toList.isSuffixOf (toLowerL l)

/-
  A model of the structured values produced by Python `json.loads`.
  Numbers keep their source lexeme (the pipeline never does arithmetic on
  them; it only stores, defaults and compares presence).
-/

/-- Parsed JSON values as Python `json.loads` produces them. -/
inductive Json where
  | null
  | bool (b : Bool)
  | str (s : L)
  | num (lex : L)
  | arr (xs : List Json)
  | obj (fields : List (L × Json))

/-- First-match lookup in an object's field list (Python `dict` lookup;
    the parser below never produces duplicate keys). -/
def aget (fs : List (L × Json)) (k : L) : Option Json :=
  match fs with
  | [] => none
  | p :: rest => if p.1 = k then some p.2 else aget rest k

/-- Python `parsed.get(key, default)` on a parsed object. -/
def objGet (j : Json) (k : L) (d : Json) : Json :=
  match j with
  | .obj fs => (aget fs k).getD d
  | _ => d

/-- Whether an object's field list has a key. -/
def hasKey (fs : List (L × Json)) (k : L) : Bool :=
  match fs with
  | [] => false
  | p :: rest => p.1 = k || hasKey rest k

/-- JSON whitespace (the four characters `json.loads` skips). -/
def jWs (c : Char) : Bool := c = ' ' || c = '\t' || c = '\n' || c = '\r'

/-- Value of one hexadecimal digit. -/
def hexVal (c : Char) : Option Nat :=
  if '0' ≤ c ∧ c ≤ '9' then some (c.toNat - '0'.toNat)
  else if 'a' ≤ c ∧ c ≤ 'f' then some (c.toNat - 'a'.toNat + 10)
  else if 'A' ≤ c ∧ c ≤ 'F' then some (c.toNat - 'A'.toNat + 10)
  else none

/-- Translation of a single-character JSON string escape. -/
def escChar (c : Char) : Option Char :=
  if c = '"' then some '"'
  else if c = '\\' then some '\\'
  else if c = '/' then some '/'
  else if c = 'b' then some (Char.ofNat 8)
  else if c = 'f' then some (Char.ofNat 12)
  else if c = 'n' then some '\n'
  else if c = 'r' then some '\r'
  else if c = 't' then some '\t'
  else none

/-- JSON string body parser (position just after the opening quote);
    returns the decoded content and the remainder after the closing quote.
    `\uXXXX` decodes through `Char.ofNat` (lone surrogate halves, which
    Python would keep, fall to the default character; no theorem feeds
    them).  Raw control characters are rejected as in strict `json.loads`. -/
def parseJStrGo : Nat → L → Option (L × L)
  | 0, _ => none
  | fuel + 1, l =>
    match l with
    | [] => none
    | c :: rest =>
      if c = '"' then some ([], rest)
      else if c = '\\' then
        match rest with
        | [] => none
        | e :: r2 =>
          if e = 'u' then
            match r2 with
            | a :: b :: c2 :: d :: r3 =>
              match hexVal a, hexVal b, hexVal c2, hexVal d with
              | some ha, some hb, some hc, some hd =>
                let n := ((ha * 16 + hb) * 16 + hc) * 16 + hd
                (parseJStrGo fuel r3).map (fun p => (Char.ofNat n :: p.1, p.2))
              | _, _, _, _ => none
            | _ => none
          else
            match escChar e with
            | some ec => (parseJStrGo fuel r2).map (fun p => (ec :: p.1, p.2))
            | none => none
      else if c.toNat < 32 then none
      else (parseJStrGo fuel rest).map (fun p => (c :: p.1, p.2))

/-- JSON string body parser with sufficient fuel. -/
def parseJStr (l : L) : Option (L × L) := parseJStrGo (l.length + 1) l

/-- Leading digit run of a list. -/
def splitDigits (l : L) : L × L := (l.takeWhile Char.isDigit, l.dropWhile Char.isDigit)

/-- Integer part of a JSON number: `0` or a nonzero digit followed by
    digits (leading zeros are not absorbed, as in the `json` grammar). -/
def parseIntPart (l : L) : Option (L × L) :=
  match l with
  | [] => none
  | c :: rest =>
    if c = '0' then some ([c], rest)
    else if c.isDigit then
      let (d, r) := splitDigits rest
      some (c :: d, r)
    else none

/-- JSON number lexer: `-? int (\.digits+)? ([eE][+-]?digits+)?`, returning
    the lexeme and the remainder.  A dot or exponent marker not followed by
    digits is left unconsumed, as Python's number regex does. -/
def parseJNum (l : L) : Option (L × L) :=
  let sp : L × L := match l with
    | c :: r => if c = '-' then (['-'], r) else ([], l)
    | [] => ([], l)
  match parseIntPart sp.2 with
  | none => none
  | some (ip, l2) =>
    let fp : L × L := match l2 with
      | c :: r =>
        if c = '.' then
          match r with
          | d :: _ =>
            if d.isDigit then
              let (ds, rr) := splitDigits r
              ('.' :: ds, rr)
            else ([], l2)
          | [] => ([], l2)
        else ([], l2)
      | [] => ([], l2)
    let ep : L × L := match fp.2 with
      | c :: r =>
        if c = 'e' ∨ c = 'E' then
          let sr : L × L := match r with
            | s :: r2 => if s = '+' ∨ s = '-' then ([s], r2) else ([], r)
            | [] => ([], r)
          match sr.2 with
          | d :: _ =>
            if d.isDigit then
              let (ds, rr) := splitDigits sr.2
              (c :: (sr.1 ++ ds), rr)
            else ([], fp.2)
          | [] => ([], fp.2)
        else ([], fp.2)
      | [] => ([], fp.2)
    some (sp.1 ++ ip ++ fp.1 ++ ep.1, ep.2)

/-- Place a member parsed in front of the already-built dictionary of the
    remaining members, with Python `dict` semantics: the first occurrence
    of a key fixes its position, the last occurrence fixes its value. -/
def dictPrepend (k : L) (v : Json) (fs : List (L × Json)) : List (L × Json) :=
  match fs.find? (fun p => p.1 = k) with
  | some p => (k, p.2) :: fs.filter (fun q => ¬ q.1 = k)
  | none => (k, v) :: fs

/-- Recursive-descent JSON value parser (model of `json.loads`' scanner).
    Object and array tails are parsed by re-entering the parser on the
    remainder prefixed with the opening bracket, which keeps the recursion
    on a plain fuel argument so every theorem about it evaluates in the
    kernel.  `NaN`/`Infinity`, which Python accepts by default, are not in
    the model; no input in this development contains them. -/
def parseValGo : Nat → L → Option (Json × L)
  | 0, _ => none
  | fuel + 1, l =>
    match l with
    | [] => none
    | c :: rest =>
      if c = lbrace then
        let t := rest.dropWhile jWs
        match t with
        | [] => none
        | d :: t2 =>
          if d = rbrace then some (.obj [], t2)
          else if d = '"' then
            match parseJStr t2 with
            | none => none
            | some (k, r1) =>
              match r1.dropWhile jWs with
              | ':' :: r3 =>
                match parseValGo fuel (r3.dropWhile jWs) with
                | none => none
                | some (v, r4) =>
                  match r4.dropWhile jWs with
                  | e :: r6 =>
                    if e = rbrace then some (.obj [(k, v)], r6)
                    else if e = ',' then
                      let r7 := r6.dropWhile jWs
                      match r7 with
                      | '"' :: _ =>
                        match parseValGo fuel (lbrace :: r7) with
                        | some (.obj fs, r8) => some (.obj (dictPrepend k v fs), r8)
                        | _ => none
                      | _ => none
                    else none
                  | [] => none
              | _ => none
          else none
      else if c = '[' then
        let t := rest.dropWhile jWs
        match t with
        | [] => none
        | d :: t2 =>
          if d = ']' then some (.arr [], t2)
          else
            match parseValGo fuel t with
            | none => none
            | some (v, r4) =>
              match r4.dropWhile jWs with
              | e :: r6 =>
                if e = ']' then some (.arr [v], r6)
                else if e = ',' then
                  let r7 := r6.dropWhile jWs
                  match r7 with
                  | [] => none
                  | g :: _ =>
                    if g = ']' then none
                    else
                      match parseValGo fuel ('[' :: r7) with
                      | some (.arr xs, r8) => some (.arr (v :: xs), r8)
                      | _ => none
                else none
              | [] => none
      else if c = '"' then
        match parseJStr rest with
        | some (s, r) => some (.str s, r)
        | none => none
      else if c = 't' then
        if "rue".toList.isPrefixOf rest then some (.bool true, rest.drop 3) else none
      else if c = 'f' then
        if "alse".toList.isPrefixOf rest then some (.bool false, rest.drop 4) else none
      else if c = 'n' then
        if "ull".toList.isPrefixOf rest then some (.null, rest.drop 3) else none
      else
        match parseJNum (c :: rest) with
        | some (lex, r) => some (.num lex, r)
        | none => none

/-- Model of `json.loads(text)`: leading and trailing whitespace allowed,
    exactly one value, the whole input consumed. -/
def parseJson (l : L) : Option Json :=
  let body := l.dropWhile jWs
  match parseValGo (body.length + 1) body with
  | some (v, rest) => if (rest.dropWhile jWs).isEmpty then some v else none
  | none => none

/-- Python `str(...)` on a parsed JSON value, as used on the result of
    `parsed.get("UUID", "UNKNOWN")`.  Scalars are rendered as Python
    renders them (number lexemes stand in for the float/int repr, which
    agrees on the plain decimal literals the devices emit); the container
    cases are an abbreviation of Python's container repr — no theorem in
    this development applies `pyStr` to a container. -/
def pyStr : Json → L
  | .str s => s
  | .num lex => lex
  | .bool true => "True".toList
  | .bool false => "False".toList
  | .null => "None".toList
  | .arr _ => "[...]".toList
  | .obj _ => "<dict>".toList

/-- Membership of a name in a Python set or list of names. -/
def listHas (flt : List L) (n : L) : Bool :=
  match flt with
  | [] => false
  | x :: rest => x = n || listHas rest n

/-- `include_only is None or name in include_only` — the persist condition
    both scripts use (the converter tests its negation). -/
def filterPass (include_only : Option (List L)) (n : L) : Bool :=
  match include_only with
  | none => true
  | some flt => listHas flt n

/-- Content of one file in the run's output directory: a JSON document
    dumped by `json.dump`, or the raw text of a broken stub. -/
inductive FileContent where
  | json (j : Json)
  | raw (text : L)

/-- Whether the output directory already holds a file of this name
    (`out_file.exists()` for a run-scoped, freshly created directory). -/
def fsHas {α : Type} (fs : List (L × α)) (n : L) : Bool :=
  match fs with
  | [] => false
  | p :: rest => p.1 = n || fsHas rest n

/-- `open(path, "w")`: create the file or truncate-overwrite an existing
    one of the same name. -/
def storeWrite {α : Type} (fs : List (L × α)) (n : L) (v : α) : List (L × α) :=
  if fsHas fs n then fs.map (fun p => if p.1 = n then (n, v) else p)
  else fs ++ [(n, v)]

/-
  Converter pipeline: `_extract_lines_to_files` of
  ignitron_preset_converter.py (lines 113-192).
-/

/-- Run state of the converter's `_extract_lines_to_files`: its five
    counters, the accumulated index `entries`, the pending
    `current_filename`, and the output directory contents. -/
structure ConvState where
  saved : Nat
  skipped_dupe : Nat
  skipped_no_filename : Nat
  broken : Nat
  skipped_not_in_list : Nat
  entries : List L
  current_filename : Option L
  fs : List (L × FileContent)

/-- The initial converter state: all counters zero, no pending filename,
    freshly created (empty) output directory. -/
def convInit : ConvState :=
  { saved := 0, skipped_dupe := 0, skipped_no_filename := 0, broken := 0,
    skipped_not_in_list := 0, entries := [], current_filename := none, fs := [] }

/-- Python truthiness of `current_filename` (`if not current_filename`):
    falsy when `None` or the empty string. -/
def currentFalsy (o : Option L) : Bool :=
  match o with
  | none => true
  | some n => n.isEmpty

/-- The key `"UUID"`. -/
def uuidKey : L := "UUID".toList

/-- The literal `"UNKNOWN"`. -/
def unknownLit : Json := .str "UNKNOWN".toList

/-- Name of the broken stub dropped for inspection:
    `Path(current_filename).stem + "_BROKEN.json"`. -/
def brokenStub (name : L) : L := pyStem name ++ "_BROKEN.json".toList

/-- One loop iteration of the converter's `_extract_lines_to_files` on a
    raw input line (source lines 133-179).  A filename line updates
    `current_filename`; a `JSON STRING:` line with a full single-line
    payload is classified into exactly one of the five outcomes; every
    other line is ignored. -/
def extractStep (include_only : Option (List L)) (s : ConvState) (raw : L) : ConvState :=
  let line := rstripCRLF raw
  match fnSearch line with
  | some g => { s with current_filename := some (pathName (pyStrip g)) }
  | none =>
    if strHas jsLit line then
      match jsSearch line with
      | none => s
      | some g =>
        if currentFalsy s.current_filename then
          { s with skipped_no_filename := s.skipped_no_filename + 1 }
        else
          let name := s.current_filename.getD []
          if !filterPass include_only name then
            { s with skipped_not_in_list := s.skipped_not_in_list + 1,
                     current_filename := none }
          else
            let raw_json := pyStrip g
            match parseJson raw_json with
            | some parsed =>
              if fsHas s.fs name then
                { s with skipped_dupe := s.skipped_dupe + 1, current_filename := none }
              else
                let uuid := pyUpper (pyStr (objGet parsed uuidKey unknownLit))
                { s with fs := s.fs ++ [(name, .json parsed)],
                         entries := s.entries ++ [name ++ ' ' :: uuid],
                         saved := s.saved + 1,
                         current_filename := none }
            | none =>
              { s with broken := s.broken + 1,
                       fs := storeWrite s.fs (brokenStub name) (.raw raw_json),
                       current_filename := none }
    else s

/-- The converter's `_extract_lines_to_files(lines, out_dir, index_path,
    include_only)`: fold the per-line step over the input from the fresh
    run state.  The returned state carries the statistics dict, the
    output-directory contents, and the index lines appended at the end. -/
def extract_lines_to_files (include_only : Option (List L)) (lines : List L) : ConvState :=
  lines.foldl (extractStep include_only) convInit

/-
  Converter bank-list handling: `parse_presetlist_from_lines`
  (lines 323-355), the `include_only` derivation of
  `live_serial_capture_and_save` (lines 409-419) and its PresetList
  export (lines 455-471).
-/

/-- Full-line match of `^\s*LIT\s*$` (the LISTBANKS/LISTPRESETS markers). -/
def fullLineIs (lit : L) (ln : L) : Bool :=
  let t := ln.dropWhile pySpace
  lit.isPrefixOf t && (t.drop lit.length).all pySpace

/-- Prefix match of `^\s*--\s*Bank\s+(\d+)`, case-insensitive
    (BANK_HEADER_RE): at least one whitespace and one digit must follow
    the word `Bank`. -/
def bankHeaderB (ln : L) : Bool :=
  let t := ln.dropWhile pySpace
  match t with
  | '-' :: '-' :: r =>
    let r2 := r.dropWhile pySpace
    if "bank".toList.isPrefixOf (toLowerL r2) then
      match r2.drop 4 with
      | c :: r3 => pySpace c && (match r3.dropWhile pySpace with
                                  | d :: _ => d.isDigit
                                  | [] => false)
      | [] => false
    else false
  | _ => false

/-- Loop of the converter's `parse_presetlist_from_lines`: collect the
    basenames of `.json` lines inside the LISTBANKS section, skipping bank
    headers and blanks; a DONE marker breaks out. -/
def parse_presetlist_go (in_section : Bool) : List L → List L
  | [] => []
  | ln :: rest =>
    if fullLineIs "LISTBANKS_START".toList ln then parse_presetlist_go true rest
    else if fullLineIs "LISTBANKS_DONE".toList ln then []
    else if in_section then
      if bankHeaderB ln then parse_presetlist_go in_section rest
      else
        let candidate := pyStrip ln
        if candidate.isEmpty then parse_presetlist_go in_section rest
        else if lowerEndsJson candidate then
          pathName candidate :: parse_presetlist_go in_section rest
        else parse_presetlist_go in_section rest
    else parse_presetlist_go in_section rest

/-- Deduplicate keeping first occurrences (the insertion order of the
    collected names; Python's `set` fixes membership exactly, while its
    iteration order is implementation-defined — the one theorem that
    iterates the set notes this). -/
def dedupFirstGo (seen : List L) : List L → List L
  | [] => []
  | x :: rest =>
    if listHas seen x then dedupFirstGo seen rest
    else x :: dedupFirstGo (seen ++ [x]) rest

/-- The converter's `parse_presetlist_from_lines(lines)`, whose result is
    `set(keep)`: membership-exact, modelled in insertion order. -/
def parse_presetlist_from_lines (lines : List L) : List L :=
  dedupFirstGo [] (parse_presetlist_go false lines)

/-- The `include_only` value `live_serial_capture_and_save` hands to the
    extraction (source lines 409-419): when active-filtering is on and a
    bank-list response arrived, the parsed set — possibly empty — is used;
    otherwise the filter is `None` (disabled). -/
def live_include_only (include_only_active : Bool) (banks_lines : List L) : Option (List L) :=
  if include_only_active && !banks_lines.isEmpty then
    some (parse_presetlist_from_lines banks_lines)
  else none

/-- Decimal rendering of a bank number. -/
def natLit (n : Nat) : L := Nat.toDigits 10 n

/-- Chunking loop of the live-capture PresetList export (source lines
    464-470): `for i in range(0, len(files), 4)` writes a 1-indexed
    `-- Bank N` header and then the at-most-four filenames of the chunk.
    Fuel is the list length, ample since each pass drops at least one. -/
def bank_chunks_go (fuel : Nat) (bank_num : Nat) (files : List L) : List L :=
  match fuel, files with
  | _, [] => []
  | 0, _ => []
  | fuel + 1, files =>
    ("-- Bank ".toList ++ natLit bank_num) :: (files.take 4 ++ bank_chunks_go fuel (bank_num + 1) (files.drop 4))

/-- The lines of the PresetList file the live capture exports for the
    active set (source lines 461-470). -/
def presetlist_export (files : List L) : List L := bank_chunks_go files.length 1 files

/-
  Puller pipeline: `_basename`, `_clean_json_text`,
  `_normalize_for_ignitron`, `_write_preset_file` and
  `_extract_lines_to_files` of preset_puller.py (lines 136-257).
-/

/-- The puller's `_basename(name)`:
    `Path(name.strip().lstrip("/")).name`. -/
def basename (name : L) : L := pathName (lstripSlash (pyStrip name))

/-- Index of the last closing brace of a text (Python `text.rfind`). -/
def lastRBraceIdx (l : L) : Option Nat :=
  match l.reverse.findIdx? (fun c => c = rbrace) with
  | some k => some (l.length - 1 - k)
  | none => none

/-- The puller's `_clean_json_text(text)`: slice from the first opening
    brace to the last closing brace when both exist in order, else the
    text unchanged. -/
def clean_json_text (l : L) : L :=
  match l.findIdx? (fun c => c = lbrace), lastRBraceIdx l with
  | some s, some e => if s ≤ e then (l.take (e + 1)).drop s else l
  | _, _ => l

/-- Drop all entries of a key (Python `dict.pop(k, None)`; dictionaries
    hold each key once, so this is exact). -/
def eraseKey (fs : List (L × Json)) (k : L) : List (L × Json) :=
  fs.filter (fun p => ¬ p.1 = k)

/-- Python `dict.setdefault(k, v)`: append the pair only when the key is
    absent. -/
def setdefault (fs : List (L × Json)) (k : L) (v : Json) : List (L × Json) :=
  if hasKey fs k then fs else fs ++ [(k, v)]

/-- Replace the value stored at a key, keeping its position
    (`preset["UUID"] = ...` on a present key). -/
def mapKeyVal (fs : List (L × Json)) (k : L) (f : Json → Json) : List (L × Json) :=
  fs.map (fun p => if p.1 = k then (p.1, f p.2) else p)

/-- The puller's `_normalize_for_ignitron(preset)` on the field list of a
    parsed preset object: pop the Spark-only `PresetNumber`, backfill the
    four Ignitron defaults only where absent, and uppercase a present
    `UUID`. -/
def normalize_for_ignitron (fs : List (L × Json)) : List (L × Json) :=
  let d := eraseKey fs "PresetNumber".toList
  let d := setdefault d "Version".toList (.str "0.7".toList)
  let d := setdefault d "Description".toList (.str [])
  let d := setdefault d "Icon".toList (.str "icon.png".toList)
  let d := setdefault d "BPM".toList (.num "120.0".toList)
  if hasKey d uuidKey then mapKeyVal d uuidKey (fun v => .str (pyUpper (pyStr v))) else d

/-- `_normalize_for_ignitron` lifted to the parsed value (the cleaner
    guarantees the parsed value is an object whenever parsing succeeds on
    a buffer that opened with a brace). -/
def normalizeJ : Json → Json
  | .obj fs => .obj (normalize_for_ignitron fs)
  | j => j

/-- Python `"\n".join(buffer)`. -/
def joinNL (buffer : List L) : L :=
  match buffer with
  | [] => []
  | b :: rest => b ++ (rest.map (fun x => '\n' :: x)).flatten

/-- Result of the puller's `_write_preset_file`: the `ok` flag it returns
    and the file write it performed, if any. -/
structure WriteResult where
  ok : Bool
  wrote : Option (L × Json)

/-- The puller's `_write_preset_file(filename, buffer, out_dir,
    include_only)` (source lines 181-199): join the buffer, clean it,
    parse, normalize, and persist under the basename when the filter
    passes; a parse or processing failure returns not-ok and writes
    nothing (the exception is caught and reported). -/
def write_preset_file (filename : L) (buffer : List L) (include_only : Option (List L)) : WriteResult :=
  let json_text := clean_json_text (joinNL buffer)
  match parseJson json_text with
  | some p =>
    let preset := normalizeJ p
    let base := basename filename
    if filterPass include_only base then ⟨true, some (base, preset)⟩
    else ⟨false, none⟩
  | none => ⟨false, none⟩

/-- Run state of the puller's `_extract_lines_to_files`: the four
    counters, the set of basenames already handled, the pending filename,
    the capture buffer, the `collecting` flag, and the output directory. -/
structure PullState where
  scanned : Nat
  saved : Nat
  skipped : Nat
  duplicate : Nat
  seen_files : List L
  filename : Option L
  buffer : List L
  collecting : Bool
  fs : List (L × Json)

/-- Fresh puller run state. -/
def pullInit : PullState :=
  { scanned := 0, saved := 0, skipped := 0, duplicate := 0, seen_files := [],
    filename := none, buffer := [], collecting := false, fs := [] }

/-- Python truthiness of the pending filename (`if filename and buffer`). -/
def truthyName (o : Option L) : Bool :=
  match o with
  | none => false
  | some n => !n.isEmpty

/-- The capture-completion block the puller runs when a new filename
    announcement arrives and again after the loop (source lines 210-224
    and 244-255, duplicated verbatim there): count the pending capture,
    classify it as duplicate or hand it to `_write_preset_file`, and
    record its basename as seen. -/
def flushPending (include_only : Option (List L)) (s : PullState) : PullState :=
  if truthyName s.filename && !s.buffer.isEmpty then
    let fname := s.filename.getD []
    let base := basename fname
    if listHas s.seen_files base then
      { s with scanned := s.scanned + 1, duplicate := s.duplicate + 1 }
    else
      let wr := write_preset_file fname s.buffer include_only
      let fs' := match wr.wrote with
        | some (n, j) => storeWrite s.fs n j
        | none => s.fs
      if wr.ok then
        { s with scanned := s.scanned + 1, saved := s.saved + 1,
                 seen_files := s.seen_files ++ [base], fs := fs' }
      else
        { s with scanned := s.scanned + 1, skipped := s.skipped + 1,
                 seen_files := s.seen_files ++ [base], fs := fs' }
  else s

/-- Python `ln.split(":", 1)[-1]`: everything after the first colon, or
    the whole line when it has none. -/
def afterFirstColon (ln : L) : L :=
  match ln.findIdx? (fun c => c = ':') with
  | some i => ln.drop (i + 1)
  | none => ln

/-- `ln[ln.index("{"):]` under the guard that a brace is present. -/
def dropToLBrace (ln : L) : L :=
  match ln.findIdx? (fun c => c = lbrace) with
  | some i => ln.drop i
  | none => ln

/-- Whether `ln.lstrip().startswith("{")`. -/
def headIsLBrace (l : L) : Bool :=
  match l with
  | c :: _ => c = lbrace
  | [] => false

/-- One loop iteration of the puller's `_extract_lines_to_files` (source
    lines 209-242): an announcement flushes the pending capture and
    starts a new one; a `JSON STRING` line with a brace starts collecting
    from its first brace; a line whose stripped form opens with a brace
    starts collecting; while collecting, every other line is appended
    verbatim. -/
def pullerStep (include_only : Option (List L)) (s : PullState) (ln : L) : PullState :=
  let low := toLowerL ln
  if "reading preset filename:".toList.isPrefixOf low then
    let s' := flushPending include_only s
    { s' with filename := some (pyStrip (afterFirstColon ln)),
              buffer := [], collecting := false }
  else if strHas "JSON STRING".toList ln && ln.contains lbrace then
    { s with collecting := true, buffer := s.buffer ++ [dropToLBrace ln] }
  else if headIsLBrace (pyLstrip ln) then
    { s with collecting := true, buffer := s.buffer ++ [ln] }
  else if s.collecting then
    { s with buffer := s.buffer ++ [ln] }
  else s

/-- The puller's `_extract_lines_to_files(lines, out_dir, include_only)`:
    fold the per-line step from the fresh state and flush the final
    pending capture. -/
def puller_extract_lines_to_files (include_only : Option (List L)) (lines : List L) : PullState :=
  flushPending include_only (lines.foldl (pullerStep include_only) pullInit)

/-
  Derived notions the specification's claims quantify over.
-/

/-- A line the converter processes as one completed capture: no filename
    announcement on it, the `JSON STRING:` marker present, and the
    payload regex matching.  Exactly these lines are classified into one
    of the five outcome counters. -/
def isCaptureLine (raw : L) : Bool :=
  let line := rstripCRLF raw
  (fnSearch line).isNone && strHas jsLit line && (jsSearch line).isSome

/-- The number of captures a line sequence makes the converter process —
    the `scanned` total of the specification. -/
def countCaptures (lines : List L) : Nat := lines.countP (fun l => isCaptureLine l)

/-- Sum of the five outcome counters of a converter run state. -/
def counterSum (s : ConvState) : Nat :=
  s.saved + s.skipped_dupe + s.skipped_no_filename + s.broken + s.skipped_not_in_list

/-- The path-safety invariant of a converter run state: every file name in
    the output directory and any pending filename is a single path
    component (contains no slash). -/
def convNoSlash (s : ConvState) : Prop :=
  (∀ p ∈ s.fs, '/' ∉ p.1) ∧ (∀ n : L, s.current_filename = some n → '/' ∉ n)

/-
  Theorems.
-/

/-- Each processed line adds one to the counter total exactly when it is a
    completed capture, and leaves the total unchanged otherwise: the five
    outcomes are mutually exclusive and exhaustive per capture. -/
theorem counterSum_extractStep (include_only : Option (List L)) (s : ConvState) (raw : L) :
    counterSum (extractStep include_only s raw) =
      counterSum s + (if isCaptureLine raw then 1 else 0) := by
  rcases hfn : fnSearch (rstripCRLF raw) with _ | g
  · cases hmk : strHas jsLit (rstripCRLF raw)
    · simp [extractStep, isCaptureLine, counterSum, hfn, hmk]
    · rcases hjs : jsSearch (rstripCRLF raw) with _ | g
      · simp [extractStep, isCaptureLine, counterSum, hfn, hmk, hjs]
      · by_cases hcf : currentFalsy s.current_filename = true
        · simp [extractStep, isCaptureLine, counterSum, hfn, hmk, hjs, hcf]
          omega
        · by_cases hfp : filterPass include_only (s.current_filename.getD []) = true
          · rcases hp : parseJson (pyStrip g) with _ | parsed
            · simp [extractStep, isCaptureLine, counterSum, hfn, hmk, hjs, hcf, hfp, hp]
              omega
            · by_cases hdp : fsHas s.fs (s.current_filename.getD []) = true
              · simp [extractStep, isCaptureLine, counterSum, hfn, hmk, hjs, hcf, hfp, hp, hdp]
                omega
              · simp [extractStep, isCaptureLine, counterSum, hfn, hmk, hjs, hcf, hfp, hp,
                  hdp]
                omega
          · simp [extractStep, isCaptureLine, counterSum, hfn, hmk, hjs, hcf, hfp]
            omega
  · simp [extractStep, isCaptureLine, counterSum, hfn]

/-- Folding the converter step accumulates exactly one count per capture
    line. -/
theorem counterSum_foldl (include_only : Option (List L)) (lines : List L) (s : ConvState) :
    counterSum (List.foldl (extractStep include_only) s lines) =
      counterSum s + countCaptures lines := by
  induction lines generalizing s with
  | nil => simp [countCaptures]
  | cons l ls ih =>
    simp only [List.foldl_cons, countCaptures, List.countP_cons] at *
    rw [ih, counterSum_extractStep]
    split <;> omega

/-- C1.  For every run of the converter's extraction pipeline — any input
    line sequence and any optional inclusion filter — the returned
    statistics satisfy
    `scanned = saved + skippedDuplicate + skippedNoFilename +
    skippedNotInFilter + broken`, where `scanned` is the number of
    processed captures; each processed capture increments exactly one of
    the five outcome counters (the per-line accounting lemma above). -/
theorem claim_C1 (include_only : Option (List L)) (lines : List L) :
    counterSum (extract_lines_to_files include_only lines) = countCaptures lines := by
  unfold extract_lines_to_files
  rw [counterSum_foldl]
  simp [convInit, counterSum]

/-- C2.  The claim says a bank-list response that yields no filenames
    disables the filter so every parsed preset is kept, and the code
    prints exactly that ("Will save all."); but on the bank-list response
    `LISTBANKS_START / LISTBANKS_DONE` the code derives `include_only =
    set()` — the empty set, not `None` — so a subsequently captured valid
    preset is counted `skipped_not_in_list` and nothing is written. -/
theorem claim_C2_bug :
    live_include_only true ["LISTBANKS_START".toList, "LISTBANKS_DONE".toList] = some [] ∧
    (extract_lines_to_files
        (live_include_only true ["LISTBANKS_START".toList, "LISTBANKS_DONE".toList])
        ["Reading preset filename: /Tone1.json".toList,
         "JSON STRING: \x7b\"UUID\":\"abc-1\"\x7d".toList]).saved = 0 ∧
    (extract_lines_to_files
        (live_include_only true ["LISTBANKS_START".toList, "LISTBANKS_DONE".toList])
        ["Reading preset filename: /Tone1.json".toList,
         "JSON STRING: \x7b\"UUID\":\"abc-1\"\x7d".toList]).skipped_not_in_list = 1 ∧
    (extract_lines_to_files
        (live_include_only true ["LISTBANKS_START".toList, "LISTBANKS_DONE".toList])
        ["Reading preset filename: /Tone1.json".toList,
         "JSON STRING: \x7b\"UUID\":\"abc-1\"\x7d".toList]).fs = [] :=
  ⟨rfl, rfl, rfl, rfl⟩

/-- C5, counterexample.  On the two example lines the converter persists
    the preset with its `UUID` field still `"abc-1"`: the identifier is
    not uppercased in the persisted object (that value differs from the
    claimed `"ABC-1"`), so the claim as stated is false at this input. -/
theorem claim_C5_cex :
    (extract_lines_to_files none
        ["Reading preset filename: /Tone1.json".toList,
         "JSON STRING: \x7b\"UUID\":\"abc-1\",\"Name\":\"Tone1\"\x7d".toList]).fs =
      [("Tone1.json".toList,
        .json (.obj [("UUID".toList, .str "abc-1".toList),
                     ("Name".toList, .str "Tone1".toList)]))] ∧
    ¬ ("abc-1".toList : L) = "ABC-1".toList :=
  ⟨rfl, by decide⟩

/-- C5, amended.  On the two example lines the converter writes exactly
    one file `Tone1.json` carrying the payload unchanged (`UUID` stays
    `"abc-1"`); the uppercased identifier appears only in the appended
    index line `"Tone1.json ABC-1"`; the run finishes with `saved = 1`
    and exactly one processed capture. -/
theorem claim_C5 :
    (extract_lines_to_files none
        ["Reading preset filename: /Tone1.json".toList,
         "JSON STRING: \x7b\"UUID\":\"abc-1\",\"Name\":\"Tone1\"\x7d".toList]).fs =
      [("Tone1.json".toList,
        .json (.obj [("UUID".toList, .str "abc-1".toList),
                     ("Name".toList, .str "Tone1".toList)]))] ∧
    (extract_lines_to_files none
        ["Reading preset filename: /Tone1.json".toList,
         "JSON STRING: \x7b\"UUID\":\"abc-1\",\"Name\":\"Tone1\"\x7d".toList]).entries =
      ["Tone1.json ABC-1".toList] ∧
    (extract_lines_to_files none
        ["Reading preset filename: /Tone1.json".toList,
         "JSON STRING: \x7b\"UUID\":\"abc-1\",\"Name\":\"Tone1\"\x7d".toList]).saved = 1 ∧
    countCaptures
        ["Reading preset filename: /Tone1.json".toList,
         "JSON STRING: \x7b\"UUID\":\"abc-1\",\"Name\":\"Tone1\"\x7d".toList] = 1 :=
  ⟨rfl, rfl, rfl, rfl⟩

/-- C7, counterexample.  The live-capture PresetList export does not pad
    the final bank: on a five-name active list the exported lines are not
    the padded ten-line layout the claim asserts. -/
theorem claim_C7_cex :
    ¬ presetlist_export
        ["A.json".toList, "B.json".toList, "C.json".toList, "D.json".toList,
         "E.json".toList] =
      ["-- Bank 1".toList, "A.json".toList, "B.json".toList, "C.json".toList,
       "D.json".toList, "-- Bank 2".toList, "E.json".toList, "E.json".toList,
       "E.json".toList, "E.json".toList] := by
  decide

/-- C7, amended.  The export groups the set-iteration order of the active
    list into chunks of 4, each prefixed by a 1-indexed `-- Bank N`
    header; a final group with fewer than four entries is written as-is,
    not padded: a five-name list exports as Bank 1 = the first four
    names and Bank 2 = the single remaining name. -/
theorem claim_C7 (a b c d e : L) :
    presetlist_export [a, b, c, d, e] =
      ["-- Bank 1".toList, a, b, c, d, "-- Bank 2".toList, e] := rfl

/-- C3.  Within one capture session, when a capture completes whose target
    filename already names a file written earlier in the session (so the
    filter necessarily passed it then), the converter increments exactly
    `skipped_dupe`, clears the pending filename, and changes nothing else:
    the existing file is not rewritten even though the new payload `j` may
    be arbitrary — the first occurrence wins. -/
theorem claim_C3 (include_only : Option (List L)) (s : ConvState) (raw n g : L) (j : Json)
    (hcur : s.current_filename = some n) (hne : ¬ n = [])
    (hfn : fnSearch (rstripCRLF raw) = none)
    (hmk : strHas jsLit (rstripCRLF raw) = true)
    (hjs : jsSearch (rstripCRLF raw) = some g)
    (hflt : filterPass include_only n = true)
    (hparse : parseJson (pyStrip g) = some j)
    (hdup : fsHas s.fs n = true) :
    extractStep include_only s raw =
      { s with skipped_dupe := s.skipped_dupe + 1, current_filename := none } := by
  have hcf : currentFalsy (some n) = false := by
    cases n with
    | nil => exact absurd rfl hne
    | cons c t => rfl
  simp [extractStep, hfn, hmk, hjs, hcur, hcf, hflt, hparse, hdup]

/-- Witness for C3: a second capture for `X.json`, carrying different
    content, is counted as a duplicate and the stored file keeps the first
    content. -/
theorem claim_C3_witness :
    extractStep none
      { convInit with current_filename := some "X.json".toList,
                      fs := [("X.json".toList,
                              .json (.obj [("Name".toList, .str "one".toList)]))] }
      "JSON STRING: \x7b\"Name\":\"two\"\x7d".toList =
    { convInit with current_filename := none,
                    skipped_dupe := 1,
                    fs := [("X.json".toList,
                            .json (.obj [("Name".toList, .str "one".toList)]))] } :=
  claim_C3 none
    { convInit with current_filename := some "X.json".toList,
                    fs := [("X.json".toList,
                            .json (.obj [("Name".toList, .str "one".toList)]))] }
    "JSON STRING: \x7b\"Name\":\"two\"\x7d".toList
    "X.json".toList
    "\x7b\"Name\":\"two\"\x7d".toList
    (.obj [("Name".toList, .str "two".toList)])
    rfl (by decide) rfl rfl rfl rfl rfl rfl

/-- C4.  A capture whose buffered text fails to parse is never fatal: the
    run on the remaining lines continues from a state in which exactly
    `broken` is incremented, the raw text is persisted under the
    distinguishable `<stem>_BROKEN.json` stub name, and the pending
    filename is cleared. -/
theorem claim_C4 (include_only : Option (List L)) (s : ConvState) (raw n g : L)
    (rest : List L)
    (hcur : s.current_filename = some n) (hne : ¬ n = [])
    (hfn : fnSearch (rstripCRLF raw) = none)
    (hmk : strHas jsLit (rstripCRLF raw) = true)
    (hjs : jsSearch (rstripCRLF raw) = some g)
    (hflt : filterPass include_only n = true)
    (hparse : parseJson (pyStrip g) = none) :
    List.foldl (extractStep include_only) s (raw :: rest) =
      List.foldl (extractStep include_only)
        { s with broken := s.broken + 1,
                 fs := storeWrite s.fs (brokenStub n) (.raw (pyStrip g)),
                 current_filename := none } rest := by
  have hcf : currentFalsy (some n) = false := by
    cases n with
    | nil => exact absurd rfl hne
    | cons c t => rfl
  rw [List.foldl_cons]
  congr 1
  simp [extractStep, hfn, hmk, hjs, hcur, hcf, hflt, hparse]

/-- Witness for C4: in a run holding one malformed and one valid capture,
    the malformed one steps to a `broken := 1` state with its stub
    persisted, and the run still saves the later valid capture. -/
theorem claim_C4_witness :
    (List.foldl (extractStep none)
        (extractStep none convInit "Reading preset filename: /Bad.json".toList)
        ["JSON STRING: \x7b\"Name\": oops\x7d".toList,
         "Reading preset filename: /Good.json".toList,
         "JSON STRING: \x7b\"Name\":\"ok\"\x7d".toList] =
      List.foldl (extractStep none)
        { (extractStep none convInit "Reading preset filename: /Bad.json".toList) with
            broken := 1,
            fs := storeWrite [] ("Bad_BROKEN.json".toList)
                    (.raw "\x7b\"Name\": oops\x7d".toList),
            current_filename := none }
        ["Reading preset filename: /Good.json".toList,
         "JSON STRING: \x7b\"Name\":\"ok\"\x7d".toList]) ∧
    (extract_lines_to_files none
        ["Reading preset filename: /Bad.json".toList,
         "JSON STRING: \x7b\"Name\": oops\x7d".toList,
         "Reading preset filename: /Good.json".toList,
         "JSON STRING: \x7b\"Name\":\"ok\"\x7d".toList]).broken = 1 ∧
    (extract_lines_to_files none
        ["Reading preset filename: /Bad.json".toList,
         "JSON STRING: \x7b\"Name\": oops\x7d".toList,
         "Reading preset filename: /Good.json".toList,
         "JSON STRING: \x7b\"Name\":\"ok\"\x7d".toList]).saved = 1 ∧
    fsHas (extract_lines_to_files none
        ["Reading preset filename: /Bad.json".toList,
         "JSON STRING: \x7b\"Name\": oops\x7d".toList,
         "Reading preset filename: /Good.json".toList,
         "JSON STRING: \x7b\"Name\":\"ok\"\x7d".toList]).fs
      "Bad_BROKEN.json".toList = true :=
  ⟨claim_C4 none
      (extractStep none convInit "Reading preset filename: /Bad.json".toList)
      "JSON STRING: \x7b\"Name\": oops\x7d".toList
      "Bad.json".toList
      "\x7b\"Name\": oops\x7d".toList
      ["Reading preset filename: /Good.json".toList,
       "JSON STRING: \x7b\"Name\":\"ok\"\x7d".toList]
      rfl (by decide) rfl rfl rfl rfl rfl,
   rfl, rfl, rfl⟩

/-- C9.  A completed JSON payload while no filename is pending is a
    recoverable anomaly: exactly `skipped_no_filename` is incremented and
    nothing else changes (first conjunct); and after processing any
    completed payload that did have a pending filename, the pending
    filename is cleared, so a further payload without a fresh announcement
    lands in the no-filename case (second conjunct). -/
theorem claim_C9 :
    (∀ (include_only : Option (List L)) (s : ConvState) (raw g : L),
        fnSearch (rstripCRLF raw) = none →
        strHas jsLit (rstripCRLF raw) = true →
        jsSearch (rstripCRLF raw) = some g →
        currentFalsy s.current_filename = true →
        extractStep include_only s raw =
          { s with skipped_no_filename := s.skipped_no_filename + 1 }) ∧
    (∀ (include_only : Option (List L)) (s : ConvState) (raw g : L),
        fnSearch (rstripCRLF raw) = none →
        strHas jsLit (rstripCRLF raw) = true →
        jsSearch (rstripCRLF raw) = some g →
        currentFalsy s.current_filename = false →
        (extractStep include_only s raw).current_filename = none) := by
  constructor
  · intro io s raw g hfn hmk hjs hcf
    simp [extractStep, hfn, hmk, hjs, hcf]
  · intro io s raw g hfn hmk hjs hcf
    by_cases hfp : filterPass io (s.current_filename.getD []) = true
    · rcases hp : parseJson (pyStrip g) with _ | parsed
      · simp [extractStep, hfn, hmk, hjs, hcf, hfp, hp]
      · by_cases hdp : fsHas s.fs (s.current_filename.getD []) = true
        · simp [extractStep, hfn, hmk, hjs, hcf, hfp, hp, hdp]
        · simp [extractStep, hfn, hmk, hjs, hcf, hfp, hp, hdp]
    · simp [extractStep, hfn, hmk, hjs, hcf, hfp]

/-- Witness for C9: an orphan payload on the fresh state increments only
    `skipped_no_filename`; a payload processed under a pending filename
    leaves the pending filename cleared. -/
theorem claim_C9_witness :
    (extractStep none convInit "JSON STRING: \x7b\"Name\":\"first\"\x7d".toList =
      { convInit with skipped_no_filename := 1 }) ∧
    ((extractStep none { convInit with current_filename := some "A.json".toList }
        "JSON STRING: \x7b\"Name\":\"a\"\x7d".toList).current_filename = none) :=
  ⟨claim_C9.1 none convInit "JSON STRING: \x7b\"Name\":\"first\"\x7d".toList
      "\x7b\"Name\":\"first\"\x7d".toList rfl rfl rfl rfl,
   claim_C9.2 none { convInit with current_filename := some "A.json".toList }
      "JSON STRING: \x7b\"Name\":\"a\"\x7d".toList
      "\x7b\"Name\":\"a\"\x7d".toList rfl rfl rfl rfl⟩

/-- Lookup through `pop("PresetNumber")` is unchanged at other keys. -/
theorem aget_eraseKey_ne (fs : List (L × Json)) (k j : L) (h : ¬ k = j) :
    aget (eraseKey fs j) k = aget fs k := by
  induction fs with
  | nil => rfl
  | cons p rest ih =>
    by_cases hp : p.1 = j
    · have hpk : ¬ p.1 = k := by rw [hp]; exact fun hh => h hh.symm
      rw [show eraseKey (p :: rest) j = eraseKey rest j by
        simp [eraseKey, List.filter_cons, hp]]
      rw [ih]
      simp [aget, hpk]
    · rw [show eraseKey (p :: rest) j = p :: eraseKey rest j by
        simp [eraseKey, List.filter_cons, hp]]
      by_cases hpk : p.1 = k
      · simp [aget, hpk]
      · simp [aget, hpk, ih]

/-- The popped key is gone. -/
theorem aget_eraseKey_self (fs : List (L × Json)) (j : L) :
    aget (eraseKey fs j) j = none := by
  induction fs with
  | nil => rfl
  | cons p rest ih =>
    by_cases hp : p.1 = j
    · rw [show eraseKey (p :: rest) j = eraseKey rest j by
        simp [eraseKey, List.filter_cons, hp]]
      exact ih
    · rw [show eraseKey (p :: rest) j = p :: eraseKey rest j by
        simp [eraseKey, List.filter_cons, hp]]
      simp [aget, hp, ih]

/-- Appending a single pair of a different key does not change lookup. -/
theorem aget_append_one_ne (fs : List (L × Json)) (j k : L) (v : Json) (h : ¬ k = j) :
    aget (fs ++ [(j, v)]) k = aget fs k := by
  induction fs with
  | nil => simp [aget, show ¬ j = k from fun hh => h hh.symm]
  | cons p rest ih =>
    by_cases hpk : p.1 = k <;> simp [aget, hpk, ih]

/-- Appending a pair of an absent key makes lookup find it. -/
theorem aget_append_one_self (fs : List (L × Json)) (k : L) (v : Json)
    (h : aget fs k = none) : aget (fs ++ [(k, v)]) k = some v := by
  induction fs with
  | nil => simp [aget]
  | cons p rest ih =>
    by_cases hpk : p.1 = k
    · simp [aget, hpk] at h
    · simp [aget, hpk] at h ⊢
      exact ih h

/-- A found key is present. -/
theorem hasKey_of_aget_some (fs : List (L × Json)) (k : L) (w : Json)
    (h : aget fs k = some w) : hasKey fs k = true := by
  induction fs with
  | nil => simp [aget] at h
  | cons p rest ih =>
    by_cases hpk : p.1 = k
    · simp [hasKey, hpk]
    · simp [aget, hpk] at h
      simp [hasKey, hpk, ih h]

/-- An absent key is not present. -/
theorem hasKey_eq_false_of_aget_none (fs : List (L × Json)) (k : L)
    (h : aget fs k = none) : hasKey fs k = false := by
  induction fs with
  | nil => rfl
  | cons p rest ih =>
    by_cases hpk : p.1 = k
    · simp [aget, hpk] at h
    · simp [aget, hpk] at h
      simp [hasKey, hpk, ih h]

/-- `setdefault` at another key does not change lookup. -/
theorem aget_setdefault_ne (fs : List (L × Json)) (j k : L) (v : Json) (h : ¬ k = j) :
    aget (setdefault fs j v) k = aget fs k := by
  unfold setdefault
  by_cases hk : hasKey fs j
  · simp [hk]
  · simp [hk, aget_append_one_ne _ _ _ _ h]

/-- `setdefault` never overwrites a present value. -/
theorem aget_setdefault_of_some (fs : List (L × Json)) (j k : L) (v w : Json)
    (h : aget fs k = some w) : aget (setdefault fs j v) k = some w := by
  by_cases hkj : k = j
  · subst hkj
    unfold setdefault
    rw [hasKey_of_aget_some fs k w h]
    simpa using h
  · rw [aget_setdefault_ne fs j k v hkj]
    exact h

/-- `setdefault` fills an absent key with the default. -/
theorem aget_setdefault_absent (fs : List (L × Json)) (k : L) (v : Json)
    (h : aget fs k = none) : aget (setdefault fs k v) k = some v := by
  unfold setdefault
  rw [hasKey_eq_false_of_aget_none fs k h]
  simpa using aget_append_one_self fs k v h

/-- The in-place `UUID` update does not change lookup at other keys. -/
theorem aget_mapKeyVal_ne (fs : List (L × Json)) (j k : L) (f : Json → Json) (h : ¬ k = j) :
    aget (mapKeyVal fs j f) k = aget fs k := by
  have hj : ¬ j = k := fun hh => h hh.symm
  induction fs with
  | nil => rfl
  | cons p rest ih =>
    simp only [mapKeyVal, List.map_cons] at *
    by_cases hp : p.1 = j
    · simp [aget, hp, hj, h, ih]
    · by_cases hpk : p.1 = k <;> simp [aget, hp, hpk, hj, h, ih]

/-- The final `UUID` step of normalization preserves lookups at other
    keys. -/
theorem aget_norm_last (d : List (L × Json)) (k : L) (w : Json)
    (hU : ¬ k = uuidKey) (h : aget d k = some w) :
    aget (if hasKey d uuidKey then
            mapKeyVal d uuidKey (fun v => .str (pyUpper (pyStr v))) else d) k = some w := by
  by_cases hk : hasKey d uuidKey <;>
    simp [hk, aget_mapKeyVal_ne _ _ _ _ hU, h]

/-- C8.  Schema normalization applies its defaults (`Version = "0.7"`,
    `Description = ""`, `Icon = "icon.png"`, `BPM = 120.0`) only to absent
    fields: any field already present — the uppercased `UUID` aside —
    keeps its exact value, `PresetNumber` is removed, and each default
    appears exactly when the field was absent. -/
theorem claim_C8 :
    (∀ (fs : List (L × Json)) (k : L) (v : Json),
        ¬ k = "UUID".toList → ¬ k = "PresetNumber".toList → aget fs k = some v →
        aget (normalize_for_ignitron fs) k = some v) ∧
    (∀ fs : List (L × Json),
        aget (normalize_for_ignitron fs) "PresetNumber".toList = none) ∧
    (∀ fs : List (L × Json), aget fs "Version".toList = none →
        aget (normalize_for_ignitron fs) "Version".toList = some (.str "0.7".toList)) ∧
    (∀ fs : List (L × Json), aget fs "Description".toList = none →
        aget (normalize_for_ignitron fs) "Description".toList = some (.str [])) ∧
    (∀ fs : List (L × Json), aget fs "Icon".toList = none →
        aget (normalize_for_ignitron fs) "Icon".toList = some (.str "icon.png".toList)) ∧
    (∀ fs : List (L × Json), aget fs "BPM".toList = none →
        aget (normalize_for_ignitron fs) "BPM".toList = some (.num "120.0".toList)) := by
  refine ⟨?_, ?_, ?_, ?_, ?_, ?_⟩
  · intro fs k v hU hP h
    simp only [normalize_for_ignitron]
    apply aget_norm_last _ _ _ hU
    apply aget_setdefault_of_some
    apply aget_setdefault_of_some
    apply aget_setdefault_of_some
    apply aget_setdefault_of_some
    rw [aget_eraseKey_ne fs k _ hP]
    exact h
  · intro fs
    simp only [normalize_for_ignitron]
    by_cases hk : hasKey (setdefault (setdefault (setdefault (setdefault
        (eraseKey fs "PresetNumber".toList) "Version".toList (.str "0.7".toList))
        "Description".toList (.str [])) "Icon".toList (.str "icon.png".toList))
        "BPM".toList (.num "120.0".toList)) uuidKey
    · simp only [hk, if_true]
      rw [aget_mapKeyVal_ne _ _ _ _ (by decide),
          aget_setdefault_ne _ _ _ _ (by decide),
          aget_setdefault_ne _ _ _ _ (by decide),
          aget_setdefault_ne _ _ _ _ (by decide),
          aget_setdefault_ne _ _ _ _ (by decide),
          aget_eraseKey_self]
    · simp only [hk, Bool.false_eq_true, if_false]
      rw [aget_setdefault_ne _ _ _ _ (by decide),
          aget_setdefault_ne _ _ _ _ (by decide),
          aget_setdefault_ne _ _ _ _ (by decide),
          aget_setdefault_ne _ _ _ _ (by decide),
          aget_eraseKey_self]
  · intro fs h
    simp only [normalize_for_ignitron]
    apply aget_norm_last _ _ _ (by decide)
    apply aget_setdefault_of_some
    apply aget_setdefault_of_some
    apply aget_setdefault_of_some
    apply aget_setdefault_absent
    rw [aget_eraseKey_ne fs _ _ (by decide)]
    exact h
  · intro fs h
    simp only [normalize_for_ignitron]
    apply aget_norm_last _ _ _ (by decide)
    apply aget_setdefault_of_some
    apply aget_setdefault_of_some
    apply aget_setdefault_absent
    rw [aget_setdefault_ne _ _ _ _ (by decide), aget_eraseKey_ne fs _ _ (by decide)]
    exact h
  · intro fs h
    simp only [normalize_for_ignitron]
    apply aget_norm_last _ _ _ (by decide)
    apply aget_setdefault_of_some
    apply aget_setdefault_absent
    rw [aget_setdefault_ne _ _ _ _ (by decide), aget_setdefault_ne _ _ _ _ (by decide),
      aget_eraseKey_ne fs _ _ (by decide)]
    exact h
  · intro fs h
    simp only [normalize_for_ignitron]
    apply aget_norm_last _ _ _ (by decide)
    apply aget_setdefault_absent
    rw [aget_setdefault_ne _ _ _ _ (by decide), aget_setdefault_ne _ _ _ _ (by decide),
      aget_setdefault_ne _ _ _ _ (by decide), aget_eraseKey_ne fs _ _ (by decide)]
    exact h

/-- Witness for C8: a present `Name` field keeps its value through
    normalization, and an absent `Version` field receives its default. -/
theorem claim_C8_witness :
    aget (normalize_for_ignitron [("Name".toList, .str "x".toList)]) "Name".toList =
      some (.str "x".toList) ∧
    aget (normalize_for_ignitron [("Name".toList, .str "x".toList)]) "Version".toList =
      some (.str "0.7".toList) :=
  ⟨claim_C8.1 [("Name".toList, .str "x".toList)] "Name".toList (.str "x".toList)
      (by decide) (by decide) rfl,
   claim_C8.2.2.1 [("Name".toList, .str "x".toList)] rfl⟩

/-- C6, counterexample.  In the puller, a buffered payload is not handed
    off when a line's trimmed form ends with a closing brace: after the
    complete, valid single-line payload for `A.json` (parsed here to show
    it is well formed), a later noise line ending in a brace is still
    appended to the same buffer, so the combined text fails to parse and
    `A.json` is never saved — the run ends with `scanned = 2, saved = 1,
    skipped = 1` and no `A.json` in the output directory, where the
    claimed hand-off-at-brace semantics would have saved it. -/
theorem claim_C6_cex :
    parseJson "\x7b\"UUID\":\"u\"\x7d".toList =
      some (.obj [("UUID".toList, .str "u".toList)]) ∧
    (puller_extract_lines_to_files none
        ["Reading preset filename: /A.json".toList,
         "\x7b\"UUID\":\"u\"\x7d".toList,
         "noise \x7d".toList,
         "Reading preset filename: /B.json".toList,
         "\x7b\"UUID\":\"v\"\x7d".toList]).scanned = 2 ∧
    (puller_extract_lines_to_files none
        ["Reading preset filename: /A.json".toList,
         "\x7b\"UUID\":\"u\"\x7d".toList,
         "noise \x7d".toList,
         "Reading preset filename: /B.json".toList,
         "\x7b\"UUID\":\"v\"\x7d".toList]).saved = 1 ∧
    (puller_extract_lines_to_files none
        ["Reading preset filename: /A.json".toList,
         "\x7b\"UUID\":\"u\"\x7d".toList,
         "noise \x7d".toList,
         "Reading preset filename: /B.json".toList,
         "\x7b\"UUID\":\"v\"\x7d".toList]).skipped = 1 ∧
    fsHas (puller_extract_lines_to_files none
        ["Reading preset filename: /A.json".toList,
         "\x7b\"UUID\":\"u\"\x7d".toList,
         "noise \x7d".toList,
         "Reading preset filename: /B.json".toList,
         "\x7b\"UUID\":\"v\"\x7d".toList]).fs "A.json".toList = false :=
  ⟨rfl, rfl, rfl, rfl, rfl⟩

/-- C6, amended.  Once capture has begun, every subsequent line that is
    not itself a filename announcement, a `JSON STRING` marker line, or a
    bare-brace line is appended verbatim to the buffer with no other state
    change — a line ending in a closing brace does not hand the buffer
    off; hand-off happens at the next filename announcement or at end of
    input.  A payload spanning multiple lines, split between tokens with
    no interleaved noise, yields the same saved record and statistics as
    the equivalent single-line payload (final conjuncts, on a concrete
    split payload). -/
theorem claim_C6 :
    (∀ (include_only : Option (List L)) (s : PullState) (ln : L),
        s.collecting = true →
        "reading preset filename:".toList.isPrefixOf (toLowerL ln) = false →
        (strHas "JSON STRING".toList ln && ln.contains lbrace) = false →
        headIsLBrace (pyLstrip ln) = false →
        pullerStep include_only s ln = { s with buffer := s.buffer ++ [ln] }) ∧
    (puller_extract_lines_to_files none
        ["Reading preset filename: /A.json".toList,
         "\x7b\"UUID\":\"u\",".toList,
         "\"Name\":\"t\"\x7d".toList]).fs =
      (puller_extract_lines_to_files none
        ["Reading preset filename: /A.json".toList,
         "\x7b\"UUID\":\"u\", \"Name\":\"t\"\x7d".toList]).fs ∧
    (puller_extract_lines_to_files none
        ["Reading preset filename: /A.json".toList,
         "\x7b\"UUID\":\"u\",".toList,
         "\"Name\":\"t\"\x7d".toList]).scanned =
      (puller_extract_lines_to_files none
        ["Reading preset filename: /A.json".toList,
         "\x7b\"UUID\":\"u\", \"Name\":\"t\"\x7d".toList]).scanned ∧
    (puller_extract_lines_to_files none
        ["Reading preset filename: /A.json".toList,
         "\x7b\"UUID\":\"u\",".toList,
         "\"Name\":\"t\"\x7d".toList]).saved =
      (puller_extract_lines_to_files none
        ["Reading preset filename: /A.json".toList,
         "\x7b\"UUID\":\"u\", \"Name\":\"t\"\x7d".toList]).saved :=
  ⟨by
    intro io s ln hc h1 h2 h3
    simp only [pullerStep]
    rw [h1, h2, h3, hc]
    simp,
   rfl, rfl, rfl⟩

/-- Witness for C6: on a concrete collecting state, a noise line (even one
    ending in a closing brace) is appended to the buffer verbatim. -/
theorem claim_C6_witness :
    pullerStep none
      { pullInit with collecting := true,
                      filename := some "/A.json".toList,
                      buffer := ["\x7b\"UUID\":\"u\"\x7d".toList] }
      "noise \x7d".toList =
    { pullInit with collecting := true,
                    filename := some "/A.json".toList,
                    buffer := ["\x7b\"UUID\":\"u\"\x7d".toList, "noise \x7d".toList] } :=
  claim_C6.1 none
    { pullInit with collecting := true,
                    filename := some "/A.json".toList,
                    buffer := ["\x7b\"UUID\":\"u\"\x7d".toList] }
    "noise \x7d".toList rfl rfl rfl rfl

/-- Every component produced by splitting on slashes is slash-free. -/
theorem splitSlashGo_noSlash (l : L) : ∀ (cur : L), '/' ∉ cur →
    ∀ comp ∈ splitSlashGo cur l, '/' ∉ comp := by
  induction l with
  | nil =>
    intro cur hcur comp hc
    simp [splitSlashGo] at hc
    subst hc
    simpa [List.mem_reverse] using hcur
  | cons c rest ih =>
    intro cur hcur comp hc
    by_cases hcs : c = '/'
    · simp [splitSlashGo, hcs] at hc
      rcases hc with hc | hc
      · subst hc
        simpa [List.mem_reverse] using hcur
      · exact ih [] (by simp) comp hc
    · simp only [splitSlashGo, if_neg hcs] at hc
      refine ih (c :: cur) ?_ comp hc
      intro h
      rcases List.mem_cons.mp h with h | h
      · exact hcs h.symm
      · exact hcur h

/-- A path's basename contains no slash. -/
theorem pathName_noSlash (l : L) : '/' ∉ pathName l := by
  unfold pathName
  rcases hg : ((splitSlashGo [] l).filter (fun c => !c.isEmpty && c ≠ ['.'])).getLast?
    with _ | n
  · rw [hg]
    simp
  · rw [hg]
    simp only [Option.getD_some]
    have hn := List.mem_getLast?_eq_getLast (Option.mem_def.mpr hg)
    rcases hn with ⟨hne, hx⟩
    have hmem : n ∈ (splitSlashGo [] l).filter (fun c => !c.isEmpty && c ≠ ['.']) := by
      rw [hx]
      exact List.getLast_mem hne
    exact splitSlashGo_noSlash l [] (by simp) n (List.mem_filter.mp hmem).1

/-- A name's stem contains no slash when the name does not. -/
theorem pyStem_noSlash (n : L) (h : '/' ∉ n) : '/' ∉ pyStem n := by
  unfold pyStem
  rcases lastDotIdx n with _ | i
  · exact h
  · by_cases hi : 0 < i ∧ i < n.length - 1
    · simp only [hi, if_true]
      intro hm
      exact h ((List.take_sublist i n).subset hm)
    · simpa [hi] using h

/-- The broken-stub name contains no slash when the capture name does
    not. -/
theorem brokenStub_noSlash (n : L) (h : '/' ∉ n) : '/' ∉ brokenStub n := by
  unfold brokenStub
  intro hm
  rcases List.mem_append.mp hm with hm | hm
  · exact pyStem_noSlash n h hm
  · revert hm
    decide

/-- Keys after a truncate-overwrite write are the written name or old
    keys. -/
theorem storeWrite_keys {α : Type} (fs : List (L × α)) (n : L) (v : α)
    (q : L × α) (hq : q ∈ storeWrite fs n v) : q.1 = n ∨ q ∈ fs := by
  unfold storeWrite at hq
  by_cases h : fsHas fs n = true
  · simp only [h, if_true, List.mem_map] at hq
    rcases hq with ⟨p, hp, hpq⟩
    by_cases hpn : p.1 = n
    · left
      rw [← hpq]
      simp [hpn]
    · right
      rw [← hpq]
      simpa [hpn] using hp
  · simp only [h] at hq
    rcases List.mem_append.mp hq with hq | hq
    · right
      exact hq
    · left
      rw [List.mem_singleton.mp hq]

/-- One converter step preserves the path-safety invariant. -/
theorem extractStep_noSlash (include_only : Option (List L)) (s : ConvState) (raw : L)
    (h : convNoSlash s) : convNoSlash (extractStep include_only s raw) := by
  rcases h with ⟨hfs, hcur⟩
  rcases hfn : fnSearch (rstripCRLF raw) with _ | g
  · cases hmk : strHas jsLit (rstripCRLF raw)
    · constructor
      · intro p hp2
        exact hfs p (by simpa [extractStep, hfn, hmk] using hp2)
      · intro m hm
        exact hcur m (by simpa [extractStep, hfn, hmk] using hm)
    · rcases hjs : jsSearch (rstripCRLF raw) with _ | g
      · constructor
        · intro p hp2
          exact hfs p (by simpa [extractStep, hfn, hmk, hjs] using hp2)
        · intro m hm
          exact hcur m (by simpa [extractStep, hfn, hmk, hjs] using hm)
      · rcases hsc : s.current_filename with _ | n
        · have hcf : currentFalsy s.current_filename = true := by
            simp [currentFalsy, hsc]
          constructor
          · intro p hp2
            exact hfs p (by simpa [extractStep, hfn, hmk, hjs, hcf] using hp2)
          · intro m hm
            exact hcur m (by simpa [extractStep, hfn, hmk, hjs, hcf] using hm)
        · have hns : '/' ∉ n := hcur n hsc
          by_cases hemp : n.isEmpty
          · have hcf : currentFalsy (some n) = true := by
              simp [currentFalsy, hemp]
            constructor
            · intro p hp2
              exact hfs p (by simpa [extractStep, hfn, hmk, hjs, hsc, hcf] using hp2)
            · intro m hm
              exact hcur m (by simpa [extractStep, hfn, hmk, hjs, hsc, hcf] using hm)
          · have hcf : currentFalsy (some n) = false := by
              simp [currentFalsy, hemp]
            by_cases hfp : filterPass include_only n = true
            · rcases hp : parseJson (pyStrip g) with _ | parsed
              · constructor
                · intro p hp2
                  have hp3 : p ∈ storeWrite s.fs (brokenStub n) (FileContent.raw (pyStrip g)) := by
                    simpa [extractStep, hfn, hmk, hjs, hcf, hsc, hfp, hp] using hp2
                  rcases storeWrite_keys _ _ _ p hp3 with hq | hq
                  · rw [hq]
                    exact brokenStub_noSlash n hns
                  · exact hfs p hq
                · intro m hm
                  simp [extractStep, hfn, hmk, hjs, hcf, hsc, hfp, hp] at hm
              · by_cases hdp : fsHas s.fs n = true
                · constructor
                  · intro p hp2
                    exact hfs p
                      (by simpa [extractStep, hfn, hmk, hjs, hcf, hsc, hfp, hp, hdp] using hp2)
                  · intro m hm
                    simp [extractStep, hfn, hmk, hjs, hcf, hsc, hfp, hp, hdp] at hm
                · constructor
                  · intro p hp2
                    have hp3 : p ∈ s.fs ++ [(n, FileContent.json parsed)] := by
                      simpa [extractStep, hfn, hmk, hjs, hcf, hsc, hfp, hp, hdp] using hp2
                    rcases List.mem_append.mp hp3 with hq | hq
                    · exact hfs p hq
                    · rw [List.mem_singleton.mp hq]
                      exact hns
                  · intro m hm
                    simp [extractStep, hfn, hmk, hjs, hcf, hsc, hfp, hp, hdp] at hm
            · constructor
              · intro p hp2
                exact hfs p (by simpa [extractStep, hfn, hmk, hjs, hsc, hcf, hfp] using hp2)
              · intro m hm
                simp [extractStep, hfn, hmk, hjs, hsc, hcf, hfp] at hm
  · constructor
    · intro p hp2
      exact hfs p (by simpa [extractStep, hfn] using hp2)
    · intro m hm
      have : m = pathName (pyStrip g) := by
        have := (by simpa [extractStep, hfn] using hm : some (pathName (pyStrip g)) = some m)
        exact (Option.some.inj this).symm
      rw [this]
      exact pathName_noSlash (pyStrip g)

/-- The whole converter fold preserves the path-safety invariant. -/
theorem foldl_noSlash (include_only : Option (List L)) (lines : List L) (s : ConvState)
    (h : convNoSlash s) : convNoSlash (List.foldl (extractStep include_only) s lines) := by
  induction lines generalizing s with
  | nil => exact h
  | cons l ls ih =>
    rw [List.foldl_cons]
    exact ih _ (extractStep_noSlash include_only s l h)

/-- Names collected from a bank-list section are basenames with no
    slash. -/
theorem parse_presetlist_go_noSlash (lines : List L) :
    ∀ (b : Bool) (n : L), n ∈ parse_presetlist_go b lines → '/' ∉ n := by
  induction lines with
  | nil =>
    intro b n hn
    simp [parse_presetlist_go] at hn
  | cons ln rest ih =>
    intro b n hn
    unfold parse_presetlist_go at hn
    by_cases h1 : fullLineIs "LISTBANKS_START".toList ln
    · simp only [h1, if_true] at hn
      exact ih true n hn
    · simp only [h1, Bool.false_eq_true, if_false] at hn
      by_cases h2 : fullLineIs "LISTBANKS_DONE".toList ln
      · simp only [h2, if_true] at hn
        simp at hn
      · simp only [h2, Bool.false_eq_true, if_false] at hn
        cases b with
        | false => simp only [Bool.false_eq_true, if_false] at hn; exact ih false n hn
        | true =>
          simp only [if_true] at hn
          by_cases h3 : bankHeaderB ln
          · simp only [h3, if_true] at hn
            exact ih true n hn
          · simp only [h3, Bool.false_eq_true, if_false] at hn
            by_cases h4 : (pyStrip ln).isEmpty
            · simp only [h4, if_true] at hn
              exact ih true n hn
            · simp only [h4, Bool.false_eq_true, if_false] at hn
              by_cases h5 : lowerEndsJson (pyStrip ln)
              · simp only [h5, if_true, List.mem_cons] at hn
                rcases hn with hn | hn
                · rw [hn]
                  exact pathName_noSlash (pyStrip ln)
                · exact ih true n hn
              · simp only [h5, Bool.false_eq_true, if_false] at hn
                exact ih true n hn

/-- Deduplication only keeps members of its input. -/
theorem dedupFirstGo_sub (l : List L) : ∀ (seen : List L) (n : L),
    n ∈ dedupFirstGo seen l → n ∈ l := by
  induction l with
  | nil => intro seen n hn; simp [dedupFirstGo] at hn
  | cons x rest ih =>
    intro seen n hn
    unfold dedupFirstGo at hn
    by_cases hx : listHas seen x = true
    · simp only [hx, if_true] at hn
      exact List.mem_cons_of_mem x (ih seen n hn)
    · simp only [hx, Bool.false_eq_true, if_false, List.mem_cons] at hn
      rcases hn with hn | hn
      · exact hn ▸ List.mem_cons_self x rest
      · exact List.mem_cons_of_mem x (ih (seen ++ [x]) n hn)

/-- C10.  Every filename the pipeline derives is reduced to a basename
    with no path-separator component before use: every file a converter
    run writes into the session output directory has a slash-free name;
    every entry of an extracted bank list is slash-free; and the puller's
    `_basename` always returns a slash-free name — so all writes land
    directly inside the run's output directory regardless of any path in
    the device log. -/
theorem claim_C10 :
    (∀ (include_only : Option (List L)) (lines : List L),
        ∀ p ∈ (extract_lines_to_files include_only lines).fs, '/' ∉ p.1) ∧
    (∀ (lines : List L), ∀ n ∈ parse_presetlist_from_lines lines, '/' ∉ n) ∧
    (∀ name : L, '/' ∉ basename name) := by
  refine ⟨?_, ?_, ?_⟩
  · intro include_only lines p hp
    have hinv : convNoSlash (extract_lines_to_files include_only lines) := by
      unfold extract_lines_to_files
      refine foldl_noSlash include_only lines convInit ⟨?_, ?_⟩
      · intro q hq
        simp [convInit] at hq
      · intro m hm
        simp [convInit] at hm
    exact hinv.1 p hp
  · intro lines n hn
    exact parse_presetlist_go_noSlash lines false n
      (dedupFirstGo_sub (parse_presetlist_go false lines) [] n hn)
  · intro name
    exact pathName_noSlash (lstripSlash (pyStrip name))

/-- Witness for C10: the file written by a concrete run has a slash-free
    name, and `_basename` strips a nested device path to its last
    component, slash-free. -/
theorem claim_C10_witness :
    ('/' ∉ ("Tone1.json".toList : L)) ∧ ('/' ∉ basename "/dir/sub/x.json".toList) :=
  ⟨claim_C10.1 none
      ["Reading preset filename: /logs/Tone1.json".toList,
       "JSON STRING: \x7b\"UUID\":\"abc-1\"\x7d".toList]
      ("Tone1.json".toList, .json (.obj [("UUID".toList, .str "abc-1".toList)]))
      (List.mem_singleton.mpr rfl),
   claim_C10.2.2 "/dir/sub/x.json".toList⟩

end Ignitron
